import Mathlib

set_option synthInstance.maxSize 512

/-!
Verification of `aggregate_results.py` (vanilla Gaussian Splatting results
aggregation) against its specification.

The script is shallowly embedded: Python dicts become association lists
preserving insertion order (Python 3.7+ dict semantics), JSON numbers become
rationals, `np.mean`/`np.std`/`np.min`/`np.max` become exact rational
reductions in the same order numpy reduces a 1-d array, and the filesystem
walk in `main` becomes a function over an abstract directory snapshot.
`np.std` returns the square root of the population variance; the embedding
carries the variance (the square of the reported std) so values stay
rational, and theorems about the std itself go through `Real.sqrt`.
-/

namespace AggRes

/-! ## Python `int()` string parsing -/

/-- ASCII whitespace stripped by Python `int(str)`. -/
def isPySpace (c : Char) : Bool :=
  c = ' ' || c = '\t' || c = '\n' || c = '\r' || c = '\x0b' || c = '\x0c'

/-- After the first digit: digits, with single underscores allowed between
digits (Python numeric-literal grouping rule). -/
def pyDigitsAux : List Char → Bool
  | [] => true
  | '_' :: c :: rest => c.isDigit && pyDigitsAux rest
  | c :: rest => c.isDigit && pyDigitsAux rest

/-- A nonempty digit run that starts with a digit and groups underscores
legally. -/
def pyDigitsOk : List Char → Bool
  | [] => false
  | c :: rest => c.isDigit && pyDigitsAux (c :: rest)

/-- Decimal value of a digit run, skipping grouping underscores. -/
def digitsVal (cs : List Char) : Nat :=
  cs.foldl (fun acc c => if c = '_' then acc else acc * 10 + (c.toNat - '0'.toNat)) 0

/-- Strip surrounding whitespace as Python `int(str)` does. -/
def pyStrip (cs : List Char) : List Char :=
  ((cs.dropWhile isPySpace).reverse.dropWhile isPySpace).reverse

/-- Model of Python `int(str)`: optional surrounding whitespace, an optional
sign, then ASCII decimal digits with legal underscore grouping.  Returns
`none` exactly when `int()` raises `ValueError`.  (Python additionally
accepts non-ASCII decimal digits; those are not modelled.)  Note that a
leading `-` is accepted: `int("-1") = -1`. -/
def pyInt? (s : String) : Option Int :=
  match pyStrip s.toList with
  | '+' :: rest => if pyDigitsOk rest then some (digitsVal rest) else none
  | '-' :: rest => if pyDigitsOk rest then some (-(digitsVal rest : Int)) else none
  | rest => if pyDigitsOk rest then some (digitsVal rest) else none

/-! ## Python `str.split('_case')` -/

/-- The fixed delimiter of `extract_scene_and_case`. -/
def caseDelim : List Char := ['_', 'c', 'a', 's', 'e']

/-- Left-to-right non-overlapping split on `caseDelim`, fuelled so the
recursion is structural (each step consumes at least one character, so
`length + 1` fuel never runs out). -/
def splitCaseAux : Nat → List Char → List Char → List (List Char)
  | 0, s, acc => [acc.reverse ++ s]
  | _ + 1, [], acc => [acc.reverse]
  | fuel + 1, c :: rest, acc =>
    if caseDelim.isPrefixOf (c :: rest) then
      acc.reverse :: splitCaseAux fuel (rest.drop 4) []
    else
      splitCaseAux fuel rest (c :: acc)

/-- Model of Python `dirname.split('_case')` (line 46). -/
def splitCase (s : String) : List String :=
  (splitCaseAux (s.toList.length + 1) s.toList []).map (fun cs => String.mk cs)

/-- Model of Python `'_case' in name` (line 71): a string contains the
delimiter iff splitting on it yields at least two parts. -/
def containsCase (s : String) : Bool := decide (2 ≤ (splitCase s).length)

/-! ## Data model -/

/-- A JSON value as loaded by `json.load` from a results file.  Arrays and
nested objects may also occur; they fail the `isinstance(value, (int, float))`
filter exactly as strings and `null` do and are collapsed into `.other`. -/
inductive MetricVal where
  | num (q : ℚ)
  | boolean (b : Bool)
  | strv (s : String)
  | null
  | other
deriving DecidableEq, Repr

/-- One checkpoint-label's metric dict: metric-name -> value, in JSON
document order (Python dicts preserve insertion order). -/
abbrev MetricMap := List (String × MetricVal)

/-- Content of one `results.json`: checkpoint-label -> metric dict. -/
abbrev Results := List (String × MetricMap)

/-- State of `<dir>/results.json` for one child directory. -/
inductive FileState where
  | missing
  | malformed
  | parsed (r : Results)
deriving DecidableEq, Repr

/-- One immediate child of the results directory. -/
structure DirEntry where
  name : String
  is_dir : Bool
  file : FileState
deriving DecidableEq, Repr

/-! ## Association lists with Python dict semantics -/

/-- Python `d.get(k)`: first (and, for dict-built lists, only) binding. -/
def alGet {K V : Type _} [DecidableEq K] (l : List (K × V)) (k : K) : Option V :=
  match l with
  | [] => none
  | (k', v) :: t => if k' = k then some v else alGet t k

/-- Python `d[k] = v`: update in place keeping the key's position, else
append at the end. -/
def alInsert {K V : Type _} [DecidableEq K] (l : List (K × V)) (k : K) (v : V) :
    List (K × V) :=
  match l with
  | [] => [(k, v)]
  | (k', v') :: t => if k' = k then (k', v) :: t else (k', v') :: alInsert t k v

/-- Keys of an association list, in order. -/
def alKeys {K V : Type _} (l : List (K × V)) : List K := l.map Prod.fst

/-! ## extract_scene_and_case (lines 41-54) -/

/-- Embedding of `extract_scene_and_case`: split on `'_case'`; exactly two
parts required; the left part is returned verbatim and the right part goes
through `int()`. -/
def extract_scene_and_case (dirname : String) : Option (String × Int) :=
  match splitCase dirname with
  | [scene_name, suffix] =>
    match pyInt? suffix with
    | some case_id => some (scene_name, case_id)
    | none => none
  | _ => none

/-! ## collect_all_results (lines 56-97) -/

/-- Lexicographic comparison of char lists by code point, the order Python
`str` comparison uses. -/
def charListLe : List Char → List Char → Bool
  | [], _ => true
  | _ :: _, [] => false
  | a :: as, b :: bs =>
    if a.toNat < b.toNat then true
    else if b.toNat < a.toNat then false
    else charListLe as bs

/-- `sorted()` comparison on directory entries: paths with a common parent
order by child name. -/
def dirLe (a b : DirEntry) : Bool := charListLe a.name.toList b.name.toList

/-- Embedding of Python `sorted` (a stable sort w.r.t. a total preorder;
insertion sort is also stable, and two stable sorts agree). -/
def sortDirs (l : List DirEntry) : List DirEntry :=
  List.insertionSort (fun a b => dirLe a b = true) l

/-- `{case_id: results}` for one scene. -/
abbrev CaseMap := List (Int × Results)

/-- `{scene_name: {case_id: results}}`, the GroupCollection. -/
abbrev AllResults := List (String × CaseMap)

/-- Loop body of `collect_all_results` (lines 78-92): skip unrecognized
names, skip missing or unparseable files, insert parsed results under
`all_results[scene_name][case_id]`. -/
def collectStep (acc : AllResults) (d : DirEntry) : AllResults :=
  match extract_scene_and_case d.name with
  | none => acc
  | some (scene_name, case_id) =>
    match d.file with
    | .parsed results =>
        alInsert acc scene_name (alInsert ((alGet acc scene_name).getD []) case_id results)
    | _ => acc

/-- The directories `collect_all_results` iterates over, in order: children
that are directories with `'_case'` in their name, sorted (line 70). -/
def processedDirs (dirs : List DirEntry) : List DirEntry :=
  sortDirs (dirs.filter (fun d => d.is_dir && containsCase d.name))

/-- Embedding of `collect_all_results` (lines 56-97). -/
def collect_all_results (dirs : List DirEntry) : AllResults :=
  (processedDirs dirs).foldl collectStep []

/-- Lookup of one sub-unit in the collection. -/
def caseGet (ar : AllResults) (s : String) (c : Int) : Option Results :=
  (alGet ar s).bind (fun cm => alGet cm c)

/-! ## Statistics (lines 99-176) -/

/-- Sum in numpy's reduction order over a 1-d array (left to right). -/
def listSum (l : List ℚ) : ℚ := l.foldl (· + ·) 0

/-- `float(np.mean(values))`, exact in ℚ. -/
def npMean (l : List ℚ) : ℚ := listSum l / l.length

/-- The square of `float(np.std(values))`: np.std is the square root of the
mean squared deviation from the mean (population convention, divisor N).
The square is carried so the value stays rational. -/
def npVarPop (l : List ℚ) : ℚ :=
  listSum (l.map (fun v => (v - npMean l) ^ 2)) / l.length

/-- `float(np.min(values))` on a nonempty array (0 is junk for `[]`, which
the code never reaches thanks to the `len(values) > 0` guard). -/
def listMin (l : List ℚ) : ℚ :=
  match l with
  | [] => 0
  | h :: t => t.foldl min h

/-- `float(np.max(values))` on a nonempty array. -/
def listMax (l : List ℚ) : ℚ :=
  match l with
  | [] => 0
  | h :: t => t.foldl max h

/-- One `stats[iteration][metric]` dict built at lines 128-135.  `var` is
the square of the reported `std`. -/
structure StatBlock where
  mean : ℚ
  var : ℚ
  min : ℚ
  max : ℚ
  count : ℕ
  values : List ℚ
deriving DecidableEq, Repr

def mkStatBlock (values : List ℚ) : StatBlock :=
  ⟨npMean values, npVarPop values, listMin values, listMax values,
    values.length, values⟩

/-- One overall stats dict built at lines 168-174 (no raw `values` list). -/
structure OverallBlock where
  mean : ℚ
  var : ℚ
  min : ℚ
  max : ℚ
  count : ℕ
deriving DecidableEq, Repr

def mkOverallBlock (values : List ℚ) : OverallBlock :=
  ⟨npMean values, npVarPop values, listMin values, listMax values, values.length⟩

/-- The `defaultdict(lambda: defaultdict(list))` accumulators of both
aggregation passes: iteration -> metric -> collected values. -/
abbrev ValueLists := List (String × List (String × List ℚ))

/-- `acc[i][m].append(q)` on the nested defaultdict. -/
def vlAppend (acc : ValueLists) (i m : String) (q : ℚ) : ValueLists :=
  let inner := (alGet acc i).getD []
  alInsert acc i (alInsert inner m (((alGet inner m).getD []) ++ [q]))

/-- The collected value sequence at `(i, m)` (empty when absent). -/
def vlGet (acc : ValueLists) (i m : String) : List ℚ :=
  (alGet ((alGet acc i).getD []) m).getD []

/-- Embedding of the `isinstance(value, (int, float))` filter (line 118).
In Python `bool` is a subclass of `int`, so JSON booleans pass this check. -/
def isinstance_int_float : MetricVal → Bool
  | .num _ => true
  | .boolean _ => true
  | _ => false

/-- The JSON value is an actual number. -/
def isNumberVal : MetricVal → Bool
  | .num _ => true
  | _ => false

/-- The JSON value is a boolean. -/
def isBooleanVal : MetricVal → Bool
  | .boolean _ => true
  | _ => false

/-- Numeric content of a value passing the filter (Python arithmetic reads
`True` as 1 and `False` as 0; junk 0 otherwise). -/
def toQ : MetricVal → ℚ
  | .num q => q
  | .boolean b => if b then 1 else 0
  | _ => 0

/-- The gathering loop of `compute_scene_statistics` (lines 115-119). -/
def sceneValueLists (scene_results : CaseMap) : ValueLists :=
  scene_results.foldl (fun acc p =>
    p.2.foldl (fun acc q =>
      q.2.foldl (fun acc r =>
        if isinstance_int_float r.2 then vlAppend acc q.1 r.1 (toQ r.2) else acc)
        acc)
      acc)
    []

/-- `{iteration: {metric: StatBlock}}` for one scene. -/
abbrev SceneStats := List (String × List (String × StatBlock))

/-- Embedding of `compute_scene_statistics` (lines 99-137). -/
def compute_scene_statistics (scene_results : CaseMap) : SceneStats :=
  (sceneValueLists scene_results).map (fun p =>
    (p.1, p.2.filterMap (fun q =>
      if 0 < q.2.length then some (q.1, mkStatBlock q.2) else none)))

/-- `{iteration: {metric: OverallBlock}}` across scenes. -/
abbrev OverallStats := List (String × List (String × OverallBlock))

/-- The gathering loop of `compute_overall_statistics` (lines 155-159): one
contribution per scene, the scene's `mean`. -/
def overallValueLists (all_scene_stats : List (String × SceneStats)) : ValueLists :=
  all_scene_stats.foldl (fun acc p =>
    p.2.foldl (fun acc q =>
      q.2.foldl (fun acc r =>
        vlAppend acc q.1 r.1 r.2.mean)
        acc)
      acc)
    []

/-- Embedding of `compute_overall_statistics` (lines 139-176). -/
def compute_overall_statistics (all_scene_stats : List (String × SceneStats)) :
    OverallStats :=
  (overallValueLists all_scene_stats).map (fun p =>
    (p.1, p.2.filterMap (fun q =>
      if 0 < q.2.length then some (q.1, mkOverallBlock q.2) else none)))

/-- Lookup in a scene's stats. -/
def statsGet (s : SceneStats) (i m : String) : Option StatBlock :=
  (alGet s i).bind (fun ms => alGet ms m)

/-- Lookup in the overall stats. -/
def overallGet (s : OverallStats) (i m : String) : Option OverallBlock :=
  (alGet s i).bind (fun ms => alGet ms m)

/-! ## main (lines 235-322) over an abstract filesystem -/

/-- Abstract filesystem snapshot: the set of existing directories and the
child listing of each.  Paths are opaque atoms (no parent/child structure),
so `mkdir(parents=True)` creates exactly the named directory. -/
structure Fs where
  dirs : List String
  children : List (String × List DirEntry)
deriving DecidableEq, Repr

/-- `Path.is_dir()`. -/
def Fs.isDirF (fs : Fs) (p : String) : Bool := decide (p ∈ fs.dirs)

/-- `Path.iterdir()` (empty for directories with no recorded listing). -/
def Fs.childrenOf (fs : Fs) (p : String) : List DirEntry :=
  (alGet fs.children p).getD []

/-- `Path.mkdir(parents=True, exist_ok=True)` on an atom path. -/
def Fs.mkdirP (fs : Fs) (p : String) : Fs :=
  if p ∈ fs.dirs then fs else ⟨fs.dirs ++ [p], fs.children⟩

/-- A snapshot is well formed when only existing directories have child
listings (what a real filesystem guarantees). -/
def Fs.Wf (fs : Fs) : Prop :=
  ∀ p, fs.isDirF p = false → fs.childrenOf p = []

/-- Command line of the script: `--results_dir` (required), `--output_dir`
(optional, defaults to the results dir), `--formats` (default json+csv). -/
structure Args where
  results_dir : String
  output_dir : Option String
  formats : List String
deriving DecidableEq, Repr

/-- Which branch ended the run. -/
inductive ExitOutcome where
  | dirNotFound
  | noResults
  | ok
deriving DecidableEq, Repr

/-- Observable result of one run: exit code, the branch taken, the
filesystem after the run, and the output files written, in order. -/
structure RunResult where
  exit_code : ℕ
  outcome : ExitOutcome
  fs : Fs
  written : List String
deriving DecidableEq, Repr

/-- Embedding of `main` (lines 235-322): resolve the output dir (line 250),
`mkdir` it (line 251), *then* check the results dir (line 253), collect,
abort on an empty collection (lines 267-269) before any file is written,
else write the selected outputs and exit 0. -/
def mainRun (args : Args) (fs0 : Fs) : RunResult :=
  let results_dir := args.results_dir
  let output_dir := args.output_dir.getD results_dir
  let fs1 := fs0.mkdirP output_dir
  if fs1.isDirF results_dir then
    let all_results := collect_all_results (fs1.childrenOf results_dir)
    if all_results.isEmpty then
      ⟨1, .noResults, fs1, []⟩
    else
      ⟨0, .ok, fs1,
        (if args.formats.contains "json" then [output_dir ++ "/aggregate_results.json"] else [])
          ++ (if args.formats.contains "csv" then [output_dir ++ "/aggregate_results.csv"] else [])⟩
  else
    ⟨1, .dirNotFound, fs1, []⟩

/-! ## Summary document (lines 293-307) -/

/-- Sort a list of strings as Python `sorted` does. -/
def sortStrings (l : List String) : List String :=
  List.insertionSort (fun a b => charListLe a.toList b.toList = true) l

/-- The `metadata` dict (lines 293-299). -/
structure Metadata where
  results_directory : String
  num_scenes : ℕ
  num_cases : ℕ
  scene_list : List String
  note : String
deriving DecidableEq, Repr

/-- The document `save_summary_json` serializes (lines 200-209). -/
structure Summary where
  metadata : Metadata
  overall_statistics : OverallStats
  per_scene_statistics : List (String × SceneStats)
deriving DecidableEq, Repr

/-- The structured summary as a function of the results-dir path and the
(enumeration-ordered) child listing: collect, per-scene stats in collection
order, overall stats, metadata (lines 264-299). -/
def buildSummary (results_dir : String) (dirs : List DirEntry) : Summary :=
  let all_results := collect_all_results dirs
  let scene_stats := all_results.map (fun p => (p.1, compute_scene_statistics p.2))
  let overall_stats := compute_overall_statistics scene_stats
  { metadata :=
      { results_directory := results_dir
        num_scenes := all_results.length
        num_cases := (all_results.map (fun p => p.2.length)).sum
        scene_list := sortStrings (all_results.map Prod.fst)
        note := "Vanilla Gaussian Splatting - RGB metrics only (PSNR, SSIM, LPIPS)" }
    overall_statistics := overall_stats
    per_scene_statistics := scene_stats }

/-! ## A fixed serialization of the summary document

`json.dump` renders the document in one fixed traversal order (dict
insertion order).  Byte-identity of the artifact across runs depends only
on the renderer being a function of the document, so the renderer below is
a fixed deterministic JSON-shaped printer; rationals print as `num/den`
(a stand-in for Python's float repr, which is itself a function of the
value) and the std as the variance under a sqrt marker. -/

def qStr (q : ℚ) : String := toString q.num ++ "/" ++ toString q.den

def jStr (s : String) : String := "\"" ++ s ++ "\""

def jObj (fields : List String) : String :=
  "\x7b" ++ String.intercalate ", " fields ++ "\x7d"

def jArr (elems : List String) : String :=
  "[" ++ String.intercalate ", " elems ++ "]"

def jField (k v : String) : String := jStr k ++ ": " ++ v

def statBlockJson (b : StatBlock) : String :=
  jObj [jField "mean" (qStr b.mean), jField "std" ("sqrt " ++ qStr b.var),
    jField "min" (qStr b.min), jField "max" (qStr b.max),
    jField "count" (toString b.count), jField "values" (jArr (b.values.map qStr))]

def overallBlockJson (b : OverallBlock) : String :=
  jObj [jField "mean" (qStr b.mean), jField "std" ("sqrt " ++ qStr b.var),
    jField "min" (qStr b.min), jField "max" (qStr b.max),
    jField "count" (toString b.count)]

def nestedJson {V : Type _} (render : V → String)
    (l : List (String × List (String × V))) : String :=
  jObj (l.map (fun p => jField p.1 (jObj (p.2.map (fun q => jField q.1 (render q.2))))))

def metadataJson (md : Metadata) : String :=
  jObj [jField "results_directory" (jStr md.results_directory),
    jField "num_scenes" (toString md.num_scenes),
    jField "num_cases" (toString md.num_cases),
    jField "scene_list" (jArr (md.scene_list.map jStr)),
    jField "note" (jStr md.note)]

/-- The bytes `save_summary_json` writes, as a function of the document. -/
def serializeSummary (s : Summary) : String :=
  jObj [jField "metadata" (metadataJson s.metadata),
    jField "overall_statistics" (nestedJson overallBlockJson s.overall_statistics),
    jField "per_scene_statistics"
      (jObj (s.per_scene_statistics.map (fun p =>
        jField p.1 (nestedJson statBlockJson p.2))))]

/-! ## Association-list lemmas -/

theorem alGet_alInsert {K V : Type _} [DecidableEq K] (l : List (K × V)) (k k' : K)
    (v : V) :
    alGet (alInsert l k v) k' = if k = k' then some v else alGet l k' := by
  induction l with
  | nil => by_cases h : k = k' <;> simp [alInsert, alGet, h]
  | cons hd t ih =>
    obtain ⟨k0, v0⟩ := hd
    by_cases h0 : k0 = k
    · subst h0
      by_cases h1 : k0 = k' <;> simp [alInsert, alGet, h1]
    · by_cases h1 : k0 = k'
      · have hkk : ¬ k = k' := fun h => h0 (h1.trans h.symm)
        have hk'k : ¬ k' = k := fun h => hkk h.symm
        simp [alInsert, alGet, h0, h1, hkk, hk'k]
      · simp [alInsert, alGet, h0, h1, ih]

theorem alGet_eq_none_iff {K V : Type _} [DecidableEq K] (l : List (K × V)) (k : K) :
    alGet l k = none ↔ k ∉ alKeys l := by
  induction l with
  | nil => simp [alGet, alKeys]
  | cons hd t ih =>
    obtain ⟨k0, v0⟩ := hd
    by_cases h0 : k0 = k
    · subst h0
      simp [alGet, alKeys]
    · simp [alGet, alKeys, h0, ih, Ne.symm h0]

theorem alGet_some_mem {K V : Type _} [DecidableEq K] {l : List (K × V)} {k : K}
    {v : V} (h : alGet l k = some v) : (k, v) ∈ l := by
  induction l with
  | nil => simp [alGet] at h
  | cons hd t ih =>
    obtain ⟨k0, v0⟩ := hd
    by_cases h0 : k0 = k
    · subst h0
      simp [alGet] at h
      simp [h]
    · simp [alGet, h0] at h
      exact List.mem_cons_of_mem _ (ih h)

theorem alGet_of_mem_nodup {K V : Type _} [DecidableEq K] {l : List (K × V)} {k : K}
    {v : V} (hn : (alKeys l).Nodup) (h : (k, v) ∈ l) : alGet l k = some v := by
  induction l with
  | nil => simp at h
  | cons hd t ih =>
    obtain ⟨k0, v0⟩ := hd
    rw [alKeys, List.map_cons, List.nodup_cons] at hn
    rcases List.mem_cons.mp h with heq | hmem
    · cases heq
      simp [alGet]
    · have hk : k0 ≠ k := by
        rintro rfl
        exact hn.1 (List.mem_map.mpr ⟨(k0, v), hmem, rfl⟩)
      simp [alGet, hk]
      exact ih hn.2 hmem

theorem alKeys_alInsert {K V : Type _} [DecidableEq K] (l : List (K × V)) (k : K)
    (v : V) :
    alKeys (alInsert l k v) = if k ∈ alKeys l then alKeys l else alKeys l ++ [k] := by
  induction l with
  | nil => simp [alInsert, alKeys]
  | cons hd t ih =>
    obtain ⟨k0, v0⟩ := hd
    by_cases h0 : k0 = k
    · subst h0
      simp [alInsert, alKeys]
    · have h0' : k ≠ k0 := Ne.symm h0
      have hstep : alInsert ((k0, v0) :: t) k v = (k0, v0) :: alInsert t k v := by
        simp [alInsert, h0]
      have hcons : alKeys ((k0, v0) :: alInsert t k v) = k0 :: alKeys (alInsert t k v) := rfl
      rw [hstep, hcons, ih]
      by_cases hmem : k ∈ alKeys t
      · rw [if_pos hmem,
          if_pos (show k ∈ alKeys ((k0, v0) :: t) from List.mem_cons_of_mem _ hmem)]
        rfl
      · rw [if_neg hmem,
          if_neg (show k ∉ alKeys ((k0, v0) :: t) from fun hk =>
            (List.mem_cons.mp hk).elim (fun h => h0' h) hmem)]
        rfl

theorem nodup_alKeys_alInsert {K V : Type _} [DecidableEq K] {l : List (K × V)}
    (k : K) (v : V) (hn : (alKeys l).Nodup) : (alKeys (alInsert l k v)).Nodup := by
  rw [alKeys_alInsert]
  by_cases hmem : k ∈ alKeys l
  · simpa [hmem] using hn
  · rw [if_neg hmem]
    refine List.Nodup.append hn (List.nodup_singleton k) ?_
    intro a ha hb
    rw [List.mem_singleton] at hb
    subst hb
    exact hmem ha

theorem alGet_mapVal {K V W : Type _} [DecidableEq K] (g : V → W)
    (l : List (K × V)) (k : K) :
    alGet (l.map (fun p => (p.1, g p.2))) k = (alGet l k).map g := by
  induction l with
  | nil => simp [alGet]
  | cons hd t ih =>
    obtain ⟨k0, v0⟩ := hd
    by_cases h0 : k0 = k <;> simp [alGet, h0, ih]

theorem alKeys_filterMap_subset {K V W : Type _} (cond : V → Prop) [DecidablePred cond]
    (h : V → W) (l : List (K × V)) :
    alKeys (l.filterMap (fun q => if cond q.2 then some (q.1, h q.2) else none))
      ⊆ alKeys l := by
  intro a ha
  rw [alKeys] at ha
  obtain ⟨q, hq, hfst⟩ := List.mem_map.mp ha
  obtain ⟨p, hp, hpq⟩ := List.mem_filterMap.mp hq
  by_cases hc : cond p.2
  · rw [if_pos hc] at hpq
    have hq' : (p.1, h p.2) = q := by injection hpq
    exact List.mem_map.mpr ⟨p, hp, by rw [← hfst, ← hq']⟩
  · rw [if_neg hc] at hpq
    exact absurd hpq (by simp)

theorem alGet_filterMapVal {K V W : Type _} [DecidableEq K] (cond : V → Prop)
    [DecidablePred cond]
    (h : V → W) (l : List (K × V)) (k : K) (hn : (alKeys l).Nodup) :
    alGet (l.filterMap (fun q => if cond q.2 then some (q.1, h q.2) else none)) k =
      (alGet l k).bind (fun v => if cond v then some (h v) else none) := by
  induction l with
  | nil => simp [alGet]
  | cons hd t ih =>
    obtain ⟨k0, v0⟩ := hd
    rw [alKeys, List.map_cons, List.nodup_cons] at hn
    by_cases h0 : k0 = k
    · subst h0
      by_cases hc : cond v0
      · simp [List.filterMap_cons, hc, alGet]
      · simp [List.filterMap_cons, hc, alGet]
        have hnot : k0 ∉ alKeys (t.filterMap
            (fun q => if cond q.2 then some (q.1, h q.2) else none)) := by
          intro hmem
          exact hn.1 (alKeys_filterMap_subset cond h t hmem)
        exact (alGet_eq_none_iff _ _).mpr hnot
    · by_cases hc : cond v0 <;>
        simp [List.filterMap_cons, hc, alGet, h0, ih hn.2]

/-! ## ValueLists lemmas: the gathering folds as flat comprehensions -/

/-- Members of `alInsert` are old members or the inserted pair. -/
theorem mem_alInsert {K V : Type _} [DecidableEq K] {l : List (K × V)} {k : K}
    {v : V} {p : K × V} (h : p ∈ alInsert l k v) : p ∈ l ∨ p = (k, v) := by
  induction l with
  | nil => simp [alInsert] at h; exact Or.inr h
  | cons hd t ih =>
    obtain ⟨k0, v0⟩ := hd
    by_cases h0 : k0 = k
    · subst h0
      simp [alInsert] at h
      rcases h with h | h
      · exact Or.inr (by simp [h])
      · exact Or.inl (List.mem_cons_of_mem _ h)
    · simp [alInsert, h0] at h
      rcases h with h | h
      · exact Or.inl (by simp [h])
      · rcases ih h with h' | h'
        · exact Or.inl (List.mem_cons_of_mem _ h')
        · exact Or.inr h'

/-- Well-formedness of a nested accumulator: unique keys at both levels. -/
def WfVL (vl : ValueLists) : Prop :=
  (alKeys vl).Nodup ∧ ∀ p ∈ vl, (alKeys p.2).Nodup

theorem wfVL_nil : WfVL [] := ⟨List.nodup_nil, by simp⟩

theorem wfVL_vlAppend {vl : ValueLists} (i m : String) (q : ℚ) (h : WfVL vl) :
    WfVL (vlAppend vl i m q) := by
  constructor
  · exact nodup_alKeys_alInsert _ _ h.1
  · intro p hp
    rcases mem_alInsert hp with hmem | hoeq
    · exact h.2 p hmem
    · subst hoeq
      refine nodup_alKeys_alInsert _ _ ?_
      cases hg : alGet vl i with
      | none => simp [hg, alKeys]
      | some ms => simpa [hg] using h.2 (i, ms) (alGet_some_mem hg)

theorem vlGet_vlAppend (acc : ValueLists) (i m : String) (q : ℚ) (i' m' : String) :
    vlGet (vlAppend acc i m q) i' m' =
      if i = i' ∧ m = m' then vlGet acc i' m' ++ [q] else vlGet acc i' m' := by
  by_cases hi : i = i'
  · subst hi
    by_cases hm : m = m'
    · subst hm
      simp [vlAppend, vlGet, alGet_alInsert]
    · simp [vlAppend, vlGet, alGet_alInsert, hm]
  · simp [vlAppend, vlGet, alGet_alInsert, hi]

/-- Folding a whole stream of `(iteration, metric, value)` appends. -/
def vlAppendAll (acc : ValueLists) (ts : List (String × String × ℚ)) : ValueLists :=
  ts.foldl (fun a t => vlAppend a t.1 t.2.1 t.2.2) acc

theorem vlAppendAll_append (acc : ValueLists) (xs ys : List (String × String × ℚ)) :
    vlAppendAll acc (xs ++ ys) = vlAppendAll (vlAppendAll acc xs) ys :=
  List.foldl_append _ _ _ _

theorem wfVL_vlAppendAll (ts : List (String × String × ℚ)) {acc : ValueLists}
    (h : WfVL acc) : WfVL (vlAppendAll acc ts) := by
  induction ts generalizing acc with
  | nil => exact h
  | cons hd tl ih => exact ih (wfVL_vlAppend _ _ _ h)

/-- The value sequence a whole append stream produces at `(i, m)`: the old
sequence followed by the stream's matching values in stream order. -/
theorem vlGet_vlAppendAll (acc : ValueLists) (ts : List (String × String × ℚ))
    (i m : String) :
    vlGet (vlAppendAll acc ts) i m =
      vlGet acc i m ++ ts.filterMap (fun t =>
        if t.1 = i ∧ t.2.1 = m then some t.2.2 else none) := by
  induction ts generalizing acc with
  | nil => simp [vlAppendAll]
  | cons hd tl ih =>
    obtain ⟨ti, tm, tq⟩ := hd
    have hstep : vlAppendAll acc ((ti, tm, tq) :: tl)
        = vlAppendAll (vlAppend acc ti tm tq) tl := rfl
    rw [hstep, ih, vlGet_vlAppend]
    by_cases hc : ti = i ∧ tm = m
    · obtain ⟨rfl, rfl⟩ := hc
      simp [List.filterMap_cons]
    · rw [if_neg hc]
      simp [List.filterMap_cons, hc]

/-- The `(iteration, metric, value)` stream `compute_scene_statistics`
gathers, in iteration order of the loops at lines 115-119. -/
def sceneTriples (scene_results : CaseMap) : List (String × String × ℚ) :=
  scene_results.flatMap (fun p =>
    p.2.flatMap (fun q =>
      q.2.filterMap (fun r =>
        if isinstance_int_float r.2 then some (q.1, r.1, toQ r.2) else none)))

theorem foldMetrics_eq (iter : String) (ms : MetricMap) (acc : ValueLists) :
    ms.foldl (fun acc r =>
        if isinstance_int_float r.2 then vlAppend acc iter r.1 (toQ r.2) else acc) acc
      = vlAppendAll acc (ms.filterMap (fun r =>
          if isinstance_int_float r.2 then some (iter, r.1, toQ r.2) else none)) := by
  induction ms generalizing acc with
  | nil => rfl
  | cons hd tl ih =>
    by_cases hc : isinstance_int_float hd.2 <;>
      simp [List.foldl_cons, List.filterMap_cons, hc, ih, vlAppendAll]

theorem foldCase_eq (cd : Results) (acc : ValueLists) :
    cd.foldl (fun acc q =>
        q.2.foldl (fun acc r =>
          if isinstance_int_float r.2 then vlAppend acc q.1 r.1 (toQ r.2) else acc)
          acc) acc
      = vlAppendAll acc (cd.flatMap (fun q =>
          q.2.filterMap (fun r =>
            if isinstance_int_float r.2 then some (q.1, r.1, toQ r.2) else none))) := by
  induction cd generalizing acc with
  | nil => rfl
  | cons hd tl ih =>
    rw [List.foldl_cons, foldMetrics_eq, ih, List.flatMap_cons, vlAppendAll_append]

theorem sceneValueLists_eq (sr : CaseMap) :
    sceneValueLists sr = vlAppendAll [] (sceneTriples sr) := by
  show sr.foldl _ [] = _
  rw [show sceneTriples sr = sr.flatMap (fun p =>
      p.2.flatMap (fun q =>
        q.2.filterMap (fun r =>
          if isinstance_int_float r.2 then some (q.1, r.1, toQ r.2) else none))) from rfl]
  generalize ([] : ValueLists) = acc
  induction sr generalizing acc with
  | nil => rfl
  | cons hd tl ih =>
    rw [List.foldl_cons, foldCase_eq, ih, List.flatMap_cons, vlAppendAll_append]

/-- The `(iteration, metric, mean)` stream `compute_overall_statistics`
gathers (lines 155-159): every scene contributes, per `(iteration, metric)`
entry it has, exactly its `mean`. -/
def overallTriples (ass : List (String × SceneStats)) : List (String × String × ℚ) :=
  ass.flatMap (fun p =>
    p.2.flatMap (fun q => q.2.map (fun r => (q.1, r.1, r.2.mean))))

theorem foldOMetrics_eq (iter : String) (ms : List (String × StatBlock))
    (acc : ValueLists) :
    ms.foldl (fun acc r => vlAppend acc iter r.1 r.2.mean) acc
      = vlAppendAll acc (ms.map (fun r => (iter, r.1, r.2.mean))) := by
  induction ms generalizing acc with
  | nil => rfl
  | cons hd tl ih => simp [List.foldl_cons, ih, vlAppendAll]

theorem foldOScene_eq (ss : SceneStats) (acc : ValueLists) :
    ss.foldl (fun acc q =>
        q.2.foldl (fun acc r => vlAppend acc q.1 r.1 r.2.mean) acc) acc
      = vlAppendAll acc (ss.flatMap (fun q =>
          q.2.map (fun r => (q.1, r.1, r.2.mean)))) := by
  induction ss generalizing acc with
  | nil => rfl
  | cons hd tl ih =>
    rw [List.foldl_cons, foldOMetrics_eq, ih, List.flatMap_cons, vlAppendAll_append]

theorem overallValueLists_eq (ass : List (String × SceneStats)) :
    overallValueLists ass = vlAppendAll [] (overallTriples ass) := by
  show ass.foldl _ [] = _
  rw [show overallTriples ass = ass.flatMap (fun p =>
      p.2.flatMap (fun q => q.2.map (fun r => (q.1, r.1, r.2.mean)))) from rfl]
  generalize ([] : ValueLists) = acc
  induction ass generalizing acc with
  | nil => rfl
  | cons hd tl ih =>
    rw [List.foldl_cons, foldOScene_eq, ih, List.flatMap_cons, vlAppendAll_append]

/-! ## Bridging stats lookups to gathered value sequences -/

/-- Lookup through the `map`/`filterMap` shape shared by both statistics
passes (lines 121-135 and 161-174). -/
theorem alGet2_statsMap {W : Type _} (mk : List ℚ → W) (vl : ValueLists)
    (hwf : WfVL vl) (i m : String) :
    (alGet (vl.map (fun p =>
        (p.1, p.2.filterMap (fun q =>
          if 0 < q.2.length then some (q.1, mk q.2) else none)))) i).bind
      (fun ms => alGet ms m)
      = if 0 < (vlGet vl i m).length then some (mk (vlGet vl i m)) else none := by
  rw [alGet_mapVal (fun ms => ms.filterMap (fun q =>
    if 0 < q.2.length then some (q.1, mk q.2) else none)) vl i]
  cases h : alGet vl i with
  | none => simp [vlGet, h, alGet]
  | some ms =>
    have hn : (alKeys ms).Nodup := hwf.2 (i, ms) (alGet_some_mem h)
    show alGet (ms.filterMap (fun q =>
        if 0 < q.2.length then some (q.1, mk q.2) else none)) m
      = if 0 < (vlGet vl i m).length then some (mk (vlGet vl i m)) else none
    rw [alGet_filterMapVal (fun vs => 0 < vs.length) mk ms m hn]
    cases h2 : alGet ms m with
    | none => simp [vlGet, h, h2]
    | some vs => simp [vlGet, h, h2]

theorem statsGet_compute_scene (sr : CaseMap) (i m : String) :
    statsGet (compute_scene_statistics sr) i m =
      if 0 < (vlGet (sceneValueLists sr) i m).length
      then some (mkStatBlock (vlGet (sceneValueLists sr) i m)) else none := by
  have hwf : WfVL (sceneValueLists sr) := by
    rw [sceneValueLists_eq]
    exact wfVL_vlAppendAll _ wfVL_nil
  exact alGet2_statsMap mkStatBlock (sceneValueLists sr) hwf i m

theorem overallGet_compute_overall (ass : List (String × SceneStats)) (i m : String) :
    overallGet (compute_overall_statistics ass) i m =
      if 0 < (vlGet (overallValueLists ass) i m).length
      then some (mkOverallBlock (vlGet (overallValueLists ass) i m)) else none := by
  have hwf : WfVL (overallValueLists ass) := by
    rw [overallValueLists_eq]
    exact wfVL_vlAppendAll _ wfVL_nil
  exact alGet2_statsMap mkOverallBlock (overallValueLists ass) hwf i m

/-! ## One contribution per group: the overall pass -/

/-- In a dict with unique keys, selecting by key yields exactly that
entry's value, or nothing. -/
theorem filterMap_key_nodup {V W : Type _} (ms : List (String × V)) (m : String)
    (g : V → W) :
    (alKeys ms).Nodup →
    ms.filterMap (fun r => if r.1 = m then some (g r.2) else none)
      = (alGet ms m).elim [] (fun v => [g v]) := by
  induction ms with
  | nil => intro _; simp [alGet]
  | cons hd t ih =>
    intro hn
    obtain ⟨m0, v0⟩ := hd
    rw [alKeys, List.map_cons, List.nodup_cons] at hn
    by_cases h0 : m0 = m
    · subst h0
      have hniltail :
          t.filterMap (fun r => if r.1 = m0 then some (g r.2) else none) = [] := by
        rw [List.filterMap_eq_nil_iff]
        intro r hr
        have hne : r.1 ≠ m0 := fun he => hn.1 (List.mem_map.mpr ⟨r, hr, he⟩)
        simp [hne]
      simp [List.filterMap_cons, alGet, hniltail]
    · simp [List.filterMap_cons, h0, alGet, ih hn.2]

/-- Unique iteration/metric keys in one scene's statistics dicts. -/
def WfScene (s : SceneStats) : Prop :=
  (alKeys s).Nodup ∧ ∀ p ∈ s, (alKeys p.2).Nodup

/-- What one scene's stats contribute to the `(i, m)` overall sequence:
its mean at `(i, m)` when present, nothing otherwise. -/
theorem sceneContribution (s : SceneStats) (i m : String) :
    (alKeys s).Nodup → (∀ p ∈ s, (alKeys p.2).Nodup) →
    (s.flatMap (fun q => q.2.map (fun r => (q.1, r.1, r.2.mean)))).filterMap
        (fun t => if t.1 = i ∧ t.2.1 = m then some t.2.2 else none)
      = (statsGet s i m).elim [] (fun b => [b.mean]) := by
  induction s with
  | nil =>
    intro _ _
    simp [statsGet, alGet]
  | cons hd t ih =>
    intro hn1 hn2
    obtain ⟨i0, ms0⟩ := hd
    rw [alKeys, List.map_cons, List.nodup_cons] at hn1
    rw [List.flatMap_cons, List.filterMap_append]
    by_cases h0 : i0 = i
    · subst h0
      have htail : (t.flatMap (fun q => q.2.map (fun r => (q.1, r.1, r.2.mean)))).filterMap
          (fun t => if t.1 = i0 ∧ t.2.1 = m then some t.2.2 else none) = [] := by
        rw [List.filterMap_eq_nil_iff]
        intro a ha
        obtain ⟨q, hq, hmem⟩ := List.mem_flatMap.mp ha
        obtain ⟨r, hr, rfl⟩ := List.mem_map.mp hmem
        have hne : q.1 ≠ i0 := fun he => hn1.1 (List.mem_map.mpr ⟨q, hq, he⟩)
        simp [hne]
      have hhead : (ms0.map (fun r => (i0, r.1, r.2.mean))).filterMap
          (fun t => if t.1 = i0 ∧ t.2.1 = m then some t.2.2 else none)
          = ms0.filterMap (fun r => if r.1 = m then some r.2.mean else none) := by
        rw [List.filterMap_map]
        congr 1
        funext r
        by_cases hr : r.1 = m <;> simp [hr, Function.comp]
      rw [htail, hhead,
        filterMap_key_nodup ms0 m (fun b => b.mean) (hn2 (i0, ms0) (by simp))]
      simp [statsGet, alGet]
    · have hhead : (ms0.map (fun r => (i0, r.1, r.2.mean))).filterMap
          (fun t => if t.1 = i ∧ t.2.1 = m then some t.2.2 else none) = [] := by
        rw [List.filterMap_eq_nil_iff]
        intro a ha
        obtain ⟨r, hr, rfl⟩ := List.mem_map.mp ha
        simp [h0]
      rw [hhead, ih hn1.2 (fun p hp => hn2 p (List.mem_cons_of_mem _ hp))]
      simp [statsGet, alGet, h0]

/-- The overall `(i, m)` sequence is: one value per group that has the
pair — the group's mean — in group order. -/
theorem overallSeq_eq (ass : List (String × SceneStats)) (i m : String) :
    (∀ p ∈ ass, WfScene p.2) →
    (overallTriples ass).filterMap
        (fun t => if t.1 = i ∧ t.2.1 = m then some t.2.2 else none)
      = ass.filterMap (fun p => (statsGet p.2 i m).map (fun b => b.mean)) := by
  induction ass with
  | nil =>
    intro _
    rfl
  | cons hd t ih =>
    intro hwf
    have hsplit : overallTriples (hd :: t)
        = (hd.2.flatMap (fun q => q.2.map (fun r => (q.1, r.1, r.2.mean))))
            ++ overallTriples t := by
      rw [overallTriples, List.flatMap_cons]
      rfl
    rw [hsplit, List.filterMap_append,
      sceneContribution hd.2 i m (hwf hd (by simp)).1 (hwf hd (by simp)).2,
      ih (fun p hp => hwf p (List.mem_cons_of_mem _ hp)), List.filterMap_cons]
    cases statsGet hd.2 i m <;> simp

theorem length_filterMap_optMap {α β γ : Type _} (f : α → Option β) (g : β → γ)
    (l : List α) :
    (l.filterMap (fun a => (f a).map g)).length
      = (l.filter (fun a => (f a).isSome)).length := by
  induction l with
  | nil => rfl
  | cons hd t ih =>
    cases h : f hd <;> simp [List.filterMap_cons, List.filter_cons, h, ih]

/-- The overall sequence at `(i, m)` as a per-group selection. -/
theorem vlGet_overall (ass : List (String × SceneStats)) (i m : String)
    (hwf : ∀ p ∈ ass, WfScene p.2) :
    vlGet (overallValueLists ass) i m
      = ass.filterMap (fun p => (statsGet p.2 i m).map (fun b => b.mean)) := by
  rw [overallValueLists_eq, vlGet_vlAppendAll, overallSeq_eq ass i m hwf]
  rfl

/-! ## Order properties of the name comparison -/

theorem charListLe_total : ∀ (a b : List Char),
    charListLe a b = true ∨ charListLe b a = true
  | [], _ => Or.inl rfl
  | _ :: _, [] => Or.inr rfl
  | a :: as, b :: bs => by
    rcases Nat.lt_trichotomy a.toNat b.toNat with h | h | h
    · exact Or.inl (by simp [charListLe, h])
    · rcases charListLe_total as bs with h' | h'
      · exact Or.inl (by simp [charListLe, h, lt_self_iff_false, h'])
      · exact Or.inr (by simp [charListLe, h, lt_self_iff_false, h'])
    · exact Or.inr (by simp [charListLe, h])

theorem charListLe_trans : ∀ (a b c : List Char),
    charListLe a b = true → charListLe b c = true → charListLe a c = true
  | [], _, _, _, _ => rfl
  | _ :: _, [], _, h1, _ => by simp [charListLe] at h1
  | _ :: _, _ :: _, [], _, h2 => by simp [charListLe] at h2
  | a :: as, b :: bs, c :: cs, h1, h2 => by
    rcases Nat.lt_trichotomy a.toNat b.toNat with hab | hab | hab
    · rcases Nat.lt_trichotomy b.toNat c.toNat with hbc | hbc | hbc
      · simp [charListLe, hab.trans hbc]
      · simp [charListLe, hbc ▸ hab]
      · exfalso
        simp [charListLe, hbc, Nat.lt_asymm hbc] at h2
    · rcases Nat.lt_trichotomy b.toNat c.toNat with hbc | hbc | hbc
      · simp [charListLe, hab ▸ hbc]
      · have hac : a.toNat = c.toNat := hab.trans hbc
        have h1' : charListLe as bs = true := by
          simpa [charListLe, hab, lt_self_iff_false] using h1
        have h2' : charListLe bs cs = true := by
          simpa [charListLe, hbc, lt_self_iff_false] using h2
        simp [charListLe, hac, lt_self_iff_false,
          charListLe_trans as bs cs h1' h2']
      · exfalso
        simp [charListLe, hbc, Nat.lt_asymm hbc] at h2
    · exfalso
      simp [charListLe, hab, Nat.lt_asymm hab] at h1

theorem charListLe_antisymm : ∀ (a b : List Char),
    charListLe a b = true → charListLe b a = true → a = b
  | [], [], _, _ => rfl
  | [], _ :: _, _, h2 => by simp [charListLe] at h2
  | _ :: _, [], h1, _ => by simp [charListLe] at h1
  | a :: as, b :: bs, h1, h2 => by
    rcases Nat.lt_trichotomy a.toNat b.toNat with hab | hab | hab
    · exfalso
      simp [charListLe, hab, Nat.lt_asymm hab] at h2
    · have hchar : a = b := by
        apply Char.ext
        exact UInt32.ext hab
      have h1' : charListLe as bs = true := by
        simpa [charListLe, hab, lt_self_iff_false] using h1
      have h2' : charListLe bs as = true := by
        simpa [charListLe, hab, lt_self_iff_false] using h2
      rw [hchar, charListLe_antisymm as bs h1' h2']
    · exfalso
      simp [charListLe, hab, Nat.lt_asymm hab] at h1

theorem string_toList_inj {s t : String} (h : s.toList = t.toList) : s = t := by
  cases s
  cases t
  exact congrArg String.mk h

theorem dirLe_name_eq {a b : DirEntry} (h1 : dirLe a b = true)
    (h2 : dirLe b a = true) : a.name = b.name :=
  string_toList_inj (charListLe_antisymm _ _ h1 h2)

instance : IsTotal DirEntry (fun a b => dirLe a b = true) :=
  ⟨fun a b => charListLe_total a.name.toList b.name.toList⟩

instance : IsTrans DirEntry (fun a b => dirLe a b = true) :=
  ⟨fun _ _ _ h1 h2 => charListLe_trans _ _ _ h1 h2⟩

/-! ## Enumeration-order invariance of the collection -/

/-- Two sorted lists that are permutations of each other and have pairwise
distinct names are equal (names of a real directory listing are distinct). -/
theorem sorted_unique : ∀ (l₁ l₂ : List DirEntry), l₁.Perm l₂ →
    l₁.Sorted (fun a b => dirLe a b = true) →
    l₂.Sorted (fun a b => dirLe a b = true) →
    (l₁.map DirEntry.name).Nodup → l₁ = l₂
  | [], l₂, hp, _, _, _ => hp.nil_eq
  | a :: t, [], hp, _, _, _ => by
    exact absurd hp.symm.nil_eq (by simp)
  | a :: t₁, b :: t₂, hp, hs₁, hs₂, hn => by
    have hb1 : b ∈ a :: t₁ := hp.symm.subset (List.mem_cons_self b t₂)
    have ha2 : a ∈ b :: t₂ := hp.subset (List.mem_cons_self a t₁)
    have hab : a = b := by
      rcases List.mem_cons.mp hb1 with h | hbt
      · exact h.symm
      rcases List.mem_cons.mp ha2 with h | hat
      · exact h
      have h1 : dirLe a b = true := (List.sorted_cons.mp hs₁).1 b hbt
      have h2 : dirLe b a = true := (List.sorted_cons.mp hs₂).1 a hat
      exact List.inj_on_of_nodup_map hn (List.mem_cons_self a t₁) hb1
        (dirLe_name_eq h1 h2)
    subst hab
    have hrest := sorted_unique t₁ t₂ hp.cons_inv (List.sorted_cons.mp hs₁).2
      (List.sorted_cons.mp hs₂).2
      (by rw [List.map_cons, List.nodup_cons] at hn; exact hn.2)
    rw [hrest]

theorem sortDirs_perm (l : List DirEntry) : (sortDirs l).Perm l :=
  List.perm_insertionSort _ _

theorem sortDirs_sorted (l : List DirEntry) :
    (sortDirs l).Sorted (fun a b => dirLe a b = true) :=
  List.sorted_insertionSort _ _

theorem sortDirs_congr {l₁ l₂ : List DirEntry} (hp : l₁.Perm l₂)
    (hn : (l₁.map DirEntry.name).Nodup) : sortDirs l₁ = sortDirs l₂ := by
  refine sorted_unique _ _
    ((sortDirs_perm l₁).trans (hp.trans (sortDirs_perm l₂).symm))
    (sortDirs_sorted l₁) (sortDirs_sorted l₂) ?_
  exact (((sortDirs_perm l₁).map DirEntry.name).nodup_iff).mpr hn

theorem processedDirs_congr {l₁ l₂ : List DirEntry} (hp : l₁.Perm l₂)
    (hn : (l₁.map DirEntry.name).Nodup) : processedDirs l₁ = processedDirs l₂ := by
  refine sortDirs_congr (hp.filter _) ?_
  exact hn.sublist ((List.filter_sublist _).map DirEntry.name)

/-- Core of C6/C9: the collection does not depend on enumeration order. -/
theorem collect_congr {l₁ l₂ : List DirEntry} (hp : l₁.Perm l₂)
    (hn : (l₁.map DirEntry.name).Nodup) :
    collect_all_results l₁ = collect_all_results l₂ := by
  rw [collect_all_results, collect_all_results, processedDirs_congr hp hn]

/-! ## Last-write-wins fold characterization -/

/-- The successfully parsed units, in processing order. -/
def parsedTriples (l : List DirEntry) : List (String × Int × Results) :=
  l.filterMap (fun d =>
    match extract_scene_and_case d.name, d.file with
    | some (s, c), FileState.parsed r => some (s, c, r)
    | _, _ => none)

/-- The parsed results carrying key `(s, c)`, in processing order. -/
def matchesAt (l : List DirEntry) (s : String) (c : Int) : List Results :=
  (parsedTriples l).filterMap (fun t =>
    if t.1 = s ∧ t.2.1 = c then some t.2.2 else none)

theorem caseGet_collectStep (acc : AllResults) (d : DirEntry) (s : String) (c : Int) :
    caseGet (collectStep acc d) s c =
      match extract_scene_and_case d.name, d.file with
      | some (s', c'), FileState.parsed r =>
          if s' = s ∧ c' = c then some r else caseGet acc s c
      | _, _ => caseGet acc s c := by
  cases hx : extract_scene_and_case d.name with
  | none => simp [collectStep, hx]
  | some p =>
    obtain ⟨s', c'⟩ := p
    cases hf : d.file with
    | missing => simp [collectStep, hx, hf]
    | malformed => simp [collectStep, hx, hf]
    | parsed r =>
      simp only [collectStep, hx, hf]
      show caseGet (alInsert acc s'
        (alInsert ((alGet acc s').getD []) c' r)) s c = _
      unfold caseGet
      rw [alGet_alInsert]
      by_cases hs : s' = s
      · subst hs
        rw [if_pos rfl]
        show alGet (alInsert ((alGet acc s').getD []) c' r) c = _
        rw [alGet_alInsert]
        by_cases hc : c' = c
        · simp [hc]
        · cases hg : alGet acc s' <;> simp [hg, alGet, hc, caseGet]
      · have hcc : ¬ (s' = s ∧ c' = c) := fun h => hs h.1
        simp [hs, hcc]

theorem getLast?_append_elim {α : Type _} (xs ys : List α) :
    (xs ++ ys).getLast? = (ys.getLast?).elim xs.getLast? some := by
  cases hys : ys.getLast? with
  | none =>
    have : ys = [] := List.getLast?_eq_none_iff.mp hys
    subst this
    simp
  | some r =>
    have hne : ys ≠ [] := by
      intro h
      subst h
      simp at hys
    rw [List.getLast?_append_of_ne_nil _ hne, hys]
    rfl

theorem matchesAt_cons (d : DirEntry) (t : List DirEntry) (s : String) (c : Int) :
    matchesAt (d :: t) s c =
      (match extract_scene_and_case d.name, d.file with
        | some (s', c'), FileState.parsed r =>
            if s' = s ∧ c' = c then [r] else []
        | _, _ => []) ++ matchesAt t s c := by
  cases hx : extract_scene_and_case d.name with
  | none => simp [matchesAt, parsedTriples, List.filterMap_cons, hx]
  | some p =>
    obtain ⟨s', c'⟩ := p
    cases hf : d.file with
    | missing => simp [matchesAt, parsedTriples, List.filterMap_cons, hx, hf]
    | malformed => simp [matchesAt, parsedTriples, List.filterMap_cons, hx, hf]
    | parsed r =>
      by_cases hc : s' = s ∧ c' = c <;>
        simp [matchesAt, parsedTriples, List.filterMap_cons, hx, hf, hc]

/-- The collection lookup after folding is the last matching parsed unit,
falling back to the accumulator. -/
theorem caseGet_foldl (l : List DirEntry) (acc : AllResults) (s : String) (c : Int) :
    caseGet (l.foldl collectStep acc) s c =
      ((matchesAt l s c).getLast?).elim (caseGet acc s c) some := by
  induction l generalizing acc with
  | nil => simp [matchesAt, parsedTriples]
  | cons d t ih =>
    rw [List.foldl_cons, ih, matchesAt_cons, getLast?_append_elim]
    cases hlast : (matchesAt t s c).getLast? with
    | some r => rfl
    | none =>
      rw [caseGet_collectStep]
      cases hx : extract_scene_and_case d.name with
      | none => rfl
      | some p =>
        obtain ⟨s', c'⟩ := p
        cases hf : d.file with
        | missing => rfl
        | malformed => rfl
        | parsed r =>
          by_cases hc : s' = s ∧ c' = c <;> simp [hc]

/-- Last-write-wins: a collection lookup returns exactly the last parsed
unit with that key in processing order (or nothing). -/
theorem caseGet_collect (dirs : List DirEntry) (s : String) (c : Int) :
    caseGet (collect_all_results dirs) s c
      = (matchesAt (processedDirs dirs) s c).getLast? := by
  rw [collect_all_results, caseGet_foldl]
  cases h : (matchesAt (processedDirs dirs) s c).getLast? <;>
    simp [caseGet, alGet]

/-! ## Origins: everything in the collection comes from a parsed unit -/

theorem mem_processedDirs {d : DirEntry} {dirs : List DirEntry}
    (h : d ∈ processedDirs dirs) : d ∈ dirs :=
  List.mem_of_mem_filter ((sortDirs_perm _).subset h)

theorem caseGet_some_origin {dirs : List DirEntry} {s : String} {c : Int}
    {r : Results} (h : caseGet (collect_all_results dirs) s c = some r) :
    ∃ d ∈ dirs, extract_scene_and_case d.name = some (s, c)
      ∧ d.file = FileState.parsed r := by
  rw [caseGet_collect] at h
  have hmem : r ∈ matchesAt (processedDirs dirs) s c :=
    List.mem_of_mem_getLast? h
  obtain ⟨t, ht, hcond⟩ := List.mem_filterMap.mp hmem
  obtain ⟨d, hd, hmatch⟩ := List.mem_filterMap.mp ht
  refine ⟨d, mem_processedDirs hd, ?_⟩
  by_cases hc : t.1 = s ∧ t.2.1 = c
  · obtain ⟨hs, hcase⟩ := hc
    rw [if_pos ⟨hs, hcase⟩] at hcond
    cases hx : extract_scene_and_case d.name with
    | none => rw [hx] at hmatch; simp at hmatch
    | some p =>
      obtain ⟨s', c'⟩ := p
      cases hf : d.file with
      | missing => rw [hx, hf] at hmatch; simp at hmatch
      | malformed => rw [hx, hf] at hmatch; simp at hmatch
      | parsed r' =>
        rw [hx, hf] at hmatch
        have ht' : (s', c', r') = t := by injection hmatch
        have : s' = s ∧ c' = c ∧ r' = r := by
          rw [← ht'] at hs hcase hcond
          exact ⟨hs, hcase, by injection hcond⟩
        rw [this.1, this.2.1, this.2.2]
        exact ⟨rfl, rfl⟩
  · rw [if_neg hc] at hcond
    simp at hcond

theorem mem_alKeys_alInsert {K V : Type _} [DecidableEq K] {l : List (K × V)}
    {k k' : K} {v : V} (h : k' ∈ alKeys (alInsert l k v)) :
    k' ∈ alKeys l ∨ k' = k := by
  rw [alKeys_alInsert] at h
  by_cases hm : k ∈ alKeys l
  · rw [if_pos hm] at h
    exact Or.inl h
  · rw [if_neg hm] at h
    rcases List.mem_append.mp h with h | h
    · exact Or.inl h
    · exact Or.inr (List.mem_singleton.mp h)

theorem scene_origin_foldl (l : List DirEntry) (acc : AllResults) (s : String) :
    s ∈ alKeys (l.foldl collectStep acc) → s ∈ alKeys acc ∨
      ∃ d ∈ l, ∃ c r, extract_scene_and_case d.name = some (s, c)
        ∧ d.file = FileState.parsed r := by
  induction l generalizing acc with
  | nil => exact fun h => Or.inl h
  | cons d t ih =>
    intro h
    rcases ih (collectStep acc d) h with h' | h'
    · cases hx : extract_scene_and_case d.name with
      | none =>
        rw [collectStep, hx] at h'
        exact Or.inl h'
      | some p =>
        obtain ⟨s', c'⟩ := p
        cases hf : d.file with
        | missing =>
          rw [collectStep, hx, hf] at h'
          exact Or.inl h'
        | malformed =>
          rw [collectStep, hx, hf] at h'
          exact Or.inl h'
        | parsed r =>
          rw [collectStep, hx, hf] at h'
          rcases mem_alKeys_alInsert h' with h'' | h''
          · exact Or.inl h''
          · subst h''
            exact Or.inr ⟨d, List.mem_cons_self d t, c', r, hx, hf⟩
    · obtain ⟨d', hd', hrest⟩ := h'
      exact Or.inr ⟨d', List.mem_cons_of_mem _ hd', hrest⟩

/-- Every group key in the collection comes from a child directory whose
name the extractor accepted and whose file parsed. -/
theorem alKeys_collect_origin {dirs : List DirEntry} {s : String}
    (h : s ∈ alKeys (collect_all_results dirs)) :
    ∃ d ∈ dirs, ∃ c r, extract_scene_and_case d.name = some (s, c)
      ∧ d.file = FileState.parsed r := by
  rcases scene_origin_foldl (processedDirs dirs) [] s h with h' | h'
  · simp [alKeys] at h'
  · obtain ⟨d, hd, hrest⟩ := h'
    exact ⟨d, mem_processedDirs hd, hrest⟩

/-! ## Filesystem and `main` lemmas -/

theorem childrenOf_mkdirP (fs : Fs) (p q : String) :
    (fs.mkdirP p).childrenOf q = fs.childrenOf q := by
  rw [Fs.mkdirP]
  split <;> rfl

theorem isDirF_mkdirP_self (fs : Fs) (p : String) :
    (fs.mkdirP p).isDirF p = true := by
  by_cases h : p ∈ fs.dirs <;> simp [Fs.mkdirP, Fs.isDirF, h]

theorem isDirF_mkdirP_of_isDirF {fs : Fs} {q : String} (p : String)
    (h : fs.isDirF q = true) : (fs.mkdirP p).isDirF q = true := by
  simp only [Fs.isDirF, decide_eq_true_eq] at h
  by_cases hp : p ∈ fs.dirs <;> simp [Fs.mkdirP, Fs.isDirF, hp, h]

theorem isDirF_of_mkdirP_ne {fs : Fs} {p q : String} (hne : q ≠ p)
    (h : (fs.mkdirP p).isDirF q = true) : fs.isDirF q = true := by
  by_cases hp : p ∈ fs.dirs
  · simpa [Fs.mkdirP, hp] using h
  · have hmk : fs.mkdirP p = ⟨fs.dirs ++ [p], fs.children⟩ := by
      simp [Fs.mkdirP, hp]
    rw [hmk] at h
    simp only [Fs.isDirF, decide_eq_true_eq] at h ⊢
    rcases List.mem_append.mp h with h | h
    · exact h
    · exact absurd (List.mem_singleton.mp h) hne

theorem collect_all_results_nil : collect_all_results [] = [] := rfl

theorem mainRun_dirNotFound {args : Args} {fs0 : Fs}
    (h : (fs0.mkdirP (args.output_dir.getD args.results_dir)).isDirF
      args.results_dir = false) :
    mainRun args fs0 =
      ⟨1, .dirNotFound, fs0.mkdirP (args.output_dir.getD args.results_dir), []⟩ := by
  simp only [mainRun]
  rw [if_neg (by simp [h])]

theorem mainRun_noResults {args : Args} {fs0 : Fs}
    (h1 : (fs0.mkdirP (args.output_dir.getD args.results_dir)).isDirF
      args.results_dir = true)
    (h2 : collect_all_results
      ((fs0.mkdirP (args.output_dir.getD args.results_dir)).childrenOf
        args.results_dir) = []) :
    mainRun args fs0 =
      ⟨1, .noResults, fs0.mkdirP (args.output_dir.getD args.results_dir), []⟩ := by
  simp only [mainRun]
  rw [if_pos h1, if_pos (by simp [h2])]

theorem mainRun_ok {args : Args} {fs0 : Fs}
    (h1 : (fs0.mkdirP (args.output_dir.getD args.results_dir)).isDirF
      args.results_dir = true)
    (h2 : collect_all_results
      ((fs0.mkdirP (args.output_dir.getD args.results_dir)).childrenOf
        args.results_dir) ≠ []) :
    mainRun args fs0 =
      ⟨0, .ok, fs0.mkdirP (args.output_dir.getD args.results_dir),
        (if args.formats.contains "json"
          then [args.output_dir.getD args.results_dir ++ "/aggregate_results.json"]
          else [])
          ++ (if args.formats.contains "csv"
            then [args.output_dir.getD args.results_dir ++ "/aggregate_results.csv"]
            else [])⟩ := by
  simp only [mainRun]
  rw [if_pos h1, if_neg (by simp [h2])]

/-- The exit-code case analysis of `main` over a well-formed snapshot. -/
theorem mainRun_exit_iff (args : Args) (fs0 : Fs) (hwf : fs0.Wf) :
    (mainRun args fs0).exit_code = 1 ↔
      (fs0.isDirF args.results_dir = false
        ∨ collect_all_results (fs0.childrenOf args.results_dir) = []) := by
  have hch := childrenOf_mkdirP fs0 (args.output_dir.getD args.results_dir)
    args.results_dir
  by_cases h1 : (fs0.mkdirP (args.output_dir.getD args.results_dir)).isDirF
      args.results_dir = true
  · by_cases h2 : collect_all_results
        ((fs0.mkdirP (args.output_dir.getD args.results_dir)).childrenOf
          args.results_dir) = []
    · rw [mainRun_noResults h1 h2]
      simp only [true_iff]
      rw [hch] at h2
      exact Or.inr h2
    · rw [mainRun_ok h1 h2]
      simp only []
      constructor
      · intro h
        exact absurd h (by simp)
      · intro h
        rcases h with h | h
        · exfalso
          have hempty : fs0.childrenOf args.results_dir = [] := hwf _ h
          rw [hch, hempty] at h2
          exact h2 collect_all_results_nil
        · exact absurd (hch ▸ h) h2
  · have h1' : (fs0.mkdirP (args.output_dir.getD args.results_dir)).isDirF
        args.results_dir = false := by
      cases hb : (fs0.mkdirP (args.output_dir.getD args.results_dir)).isDirF
          args.results_dir
      · rfl
      · exact absurd hb h1
    rw [mainRun_dirNotFound h1']
    simp only [true_iff]
    left
    cases hb : fs0.isDirF args.results_dir
    · rfl
    · exact absurd (isDirF_mkdirP_of_isDirF _ hb) h1

/-- `main` exits with 0 or 1, and the fatal branches write nothing. -/
theorem mainRun_codes (args : Args) (fs0 : Fs) :
    ((mainRun args fs0).exit_code = 0 ∨ (mainRun args fs0).exit_code = 1)
    ∧ ((mainRun args fs0).exit_code = 1 → (mainRun args fs0).written = []) := by
  by_cases h1 : (fs0.mkdirP (args.output_dir.getD args.results_dir)).isDirF
      args.results_dir = true
  · by_cases h2 : collect_all_results
        ((fs0.mkdirP (args.output_dir.getD args.results_dir)).childrenOf
          args.results_dir) = []
    · rw [mainRun_noResults h1 h2]
      exact ⟨Or.inr rfl, fun _ => rfl⟩
    · rw [mainRun_ok h1 h2]
      exact ⟨Or.inl rfl, fun h => absurd h (by simp)⟩
  · have h1' : (fs0.mkdirP (args.output_dir.getD args.results_dir)).isDirF
        args.results_dir = false := by
      cases hb : (fs0.mkdirP (args.output_dir.getD args.results_dir)).isDirF
          args.results_dir
      · rfl
      · exact absurd hb h1
    rw [mainRun_dirNotFound h1']
    exact ⟨Or.inr rfl, fun _ => rfl⟩

/-- The structured document is invariant under enumeration order. -/
theorem buildSummary_congr (rd : String) {l₁ l₂ : List DirEntry} (hp : l₁.Perm l₂)
    (hn : (l₁.map DirEntry.name).Nodup) : buildSummary rd l₁ = buildSummary rd l₂ := by
  unfold buildSummary
  rw [collect_congr hp hn]

/-! ## Invariants of the key structure of the computed statistics -/

theorem alKeys_filterMap_sublist {K V W : Type _} (cond : V → Prop)
    [DecidablePred cond] (h : V → W) (l : List (K × V)) :
    (alKeys (l.filterMap (fun q =>
      if cond q.2 then some (q.1, h q.2) else none))).Sublist (alKeys l) := by
  induction l with
  | nil => simp [alKeys]
  | cons hd t ih =>
    by_cases hc : cond hd.2
    · simpa [List.filterMap_cons, hc, alKeys] using ih.cons₂ hd.1
    · simp only [List.filterMap_cons, if_pos hc, if_neg hc, alKeys, List.map_cons]
      exact ih.cons _

theorem wfScene_compute (sr : CaseMap) : WfScene (compute_scene_statistics sr) := by
  have hwf : WfVL (sceneValueLists sr) := by
    rw [sceneValueLists_eq]
    exact wfVL_vlAppendAll _ wfVL_nil
  constructor
  · have hkeys : alKeys (compute_scene_statistics sr) = alKeys (sceneValueLists sr) := by
      simp [compute_scene_statistics, alKeys]
    rw [hkeys]
    exact hwf.1
  · intro p hp
    obtain ⟨q, hq, heq⟩ := List.mem_map.mp hp
    have hsnd : p.2 = q.2.filterMap (fun q =>
        if 0 < q.2.length then some (q.1, mkStatBlock q.2) else none) := by
      rw [← heq]
    rw [hsnd]
    exact List.Nodup.sublist
      (alKeys_filterMap_sublist (fun vs => 0 < vs.length) mkStatBlock q.2)
      (hwf.2 q hq)

/-! ## The spec's concrete scenarios as inputs -/

/-- Scenario A: one group, two sub-units reporting PSNR 20.0 and 22.0. -/
def scenarioA : CaseMap :=
  [(0, [("ours_7000", [("PSNR", MetricVal.num 20)])]),
   (1, [("ours_7000", [("PSNR", MetricVal.num 22)])])]

/-- Scenario B: two groups, one sub-unit each, PSNR 20.0 and 30.0. -/
def scenarioB : List (String × SceneStats) :=
  [("sceneA", compute_scene_statistics [(0, [("ours_7000", [("PSNR", MetricVal.num 20)])])]),
   ("sceneB", compute_scene_statistics [(0, [("ours_7000", [("PSNR", MetricVal.num 30)])])])]

/-- A child directory named with a negative `_case` suffix. -/
def entryNegCase : DirEntry :=
  ⟨"sceneB_case-1", true, FileState.parsed [("ours_7000", [])]⟩

/-! ## Claims -/

/-- C2: every (label, metric) entry present in the per-group statistics and
in the overall statistics has count ≥ 1, and a pair whose collected value
sequence is empty is absent from the parent mapping (no zero-count blocks). -/
theorem c2_no_zero_count_entries :
    (∀ (sr : CaseMap) (i : String) (ms : List (String × StatBlock)) (m : String)
        (b : StatBlock),
      (i, ms) ∈ compute_scene_statistics sr → (m, b) ∈ ms → 1 ≤ b.count)
    ∧ (∀ (ass : List (String × SceneStats)) (i : String)
        (ms : List (String × OverallBlock)) (m : String) (b : OverallBlock),
      (i, ms) ∈ compute_overall_statistics ass → (m, b) ∈ ms → 1 ≤ b.count)
    ∧ (∀ (sr : CaseMap) (i m : String), vlGet (sceneValueLists sr) i m = [] →
        statsGet (compute_scene_statistics sr) i m = none)
    ∧ (∀ (ass : List (String × SceneStats)) (i m : String),
        vlGet (overallValueLists ass) i m = [] →
        overallGet (compute_overall_statistics ass) i m = none) := by
  refine ⟨?_, ?_, ?_, ?_⟩
  · intro sr i ms m b h1 h2
    obtain ⟨p, hp, heq⟩ := List.mem_map.mp h1
    have hms : ms = p.2.filterMap (fun q =>
        if 0 < q.2.length then some (q.1, mkStatBlock q.2) else none) := by
      have := congrArg Prod.snd heq
      simpa using this.symm
    rw [hms] at h2
    obtain ⟨q, hq, hg⟩ := List.mem_filterMap.mp h2
    by_cases hl : 0 < q.2.length
    · rw [if_pos hl] at hg
      have hb : b = mkStatBlock q.2 := by
        injection hg with hg'
        have := congrArg Prod.snd hg'
        simpa using this.symm
      rw [hb]
      exact hl
    · rw [if_neg hl] at hg
      cases hg
  · intro ass i ms m b h1 h2
    obtain ⟨p, hp, heq⟩ := List.mem_map.mp h1
    have hms : ms = p.2.filterMap (fun q =>
        if 0 < q.2.length then some (q.1, mkOverallBlock q.2) else none) := by
      have := congrArg Prod.snd heq
      simpa using this.symm
    rw [hms] at h2
    obtain ⟨q, hq, hg⟩ := List.mem_filterMap.mp h2
    by_cases hl : 0 < q.2.length
    · rw [if_pos hl] at hg
      have hb : b = mkOverallBlock q.2 := by
        injection hg with hg'
        have := congrArg Prod.snd hg'
        simpa using this.symm
      rw [hb]
      exact hl
    · rw [if_neg hl] at hg
      cases hg
  · intro sr i m h
    rw [statsGet_compute_scene, h]
    rfl
  · intro ass i m h
    rw [overallGet_compute_overall, h]
    rfl

/-- Witness for C2 at scenario A. -/
theorem c2_no_zero_count_entries_witness :
    1 ≤ (mkStatBlock [(20 : ℚ), 22]).count :=
  c2_no_zero_count_entries.1 scenarioA "ours_7000"
    [("PSNR", mkStatBlock [20, 22])] "PSNR" (mkStatBlock [20, 22])
    (by rw [show compute_scene_statistics scenarioA
          = [("ours_7000", [("PSNR", mkStatBlock [20, 22])])] from rfl]
        exact List.mem_singleton.mpr rfl)
    (List.mem_singleton.mpr rfl)

/-- C3: the variance carried by every produced block is the population
variance (squared-deviation sum divided by N = count, not N − 1), for both
statistics passes; concretely, scenario A yields mean 21, std 1 (variance 1),
min 20, max 22, count 2. -/
theorem c3_population_std :
    (∀ (sr : CaseMap) (i m : String) (b : StatBlock),
      statsGet (compute_scene_statistics sr) i m = some b →
      b.count = b.values.length ∧ 0 < b.count
        ∧ b.mean = listSum b.values / b.count
        ∧ b.var = listSum (b.values.map (fun v => (v - b.mean) ^ 2)) / b.count)
    ∧ (∀ (ass : List (String × SceneStats)) (i m : String) (b : OverallBlock),
      overallGet (compute_overall_statistics ass) i m = some b →
      b.count = (vlGet (overallValueLists ass) i m).length
        ∧ b.var = listSum ((vlGet (overallValueLists ass) i m).map
            (fun v => (v - b.mean) ^ 2)) / b.count)
    ∧ statsGet (compute_scene_statistics scenarioA) "ours_7000" "PSNR"
        = some ⟨21, 1, 20, 22, 2, [20, 22]⟩
    ∧ Real.sqrt ((1 : ℚ) : ℝ) = 1 := by
  refine ⟨?_, ?_, ?_, by norm_num⟩
  · intro sr i m b h
    rw [statsGet_compute_scene] at h
    by_cases hl : 0 < (vlGet (sceneValueLists sr) i m).length
    · rw [if_pos hl] at h
      have hb : b = mkStatBlock (vlGet (sceneValueLists sr) i m) := by
        injection h with h'
        exact h'.symm
      subst hb
      exact ⟨rfl, hl, rfl, rfl⟩
    · rw [if_neg hl] at h
      cases h
  · intro ass i m b h
    rw [overallGet_compute_overall] at h
    by_cases hl : 0 < (vlGet (overallValueLists ass) i m).length
    · rw [if_pos hl] at h
      have hb : b = mkOverallBlock (vlGet (overallValueLists ass) i m) := by
        injection h with h'
        exact h'.symm
      subst hb
      exact ⟨rfl, rfl⟩
    · rw [if_neg hl] at h
      cases h
  · norm_num [scenarioA, compute_scene_statistics, sceneValueLists, vlAppend, vlGet,
      alGet, alInsert, statsGet, mkStatBlock, npMean, npVarPop, listSum, listMin,
      listMax, isinstance_int_float, toQ, min_def, max_def]

/-- Witness for C3 at scenario A. -/
theorem c3_population_std_witness :
    (⟨21, 1, 20, 22, 2, [20, 22]⟩ : StatBlock).count
        = (⟨21, 1, 20, 22, 2, [20, 22]⟩ : StatBlock).values.length
      ∧ 0 < (⟨21, 1, 20, 22, 2, [20, 22]⟩ : StatBlock).count
      ∧ (⟨21, 1, 20, 22, 2, [20, 22]⟩ : StatBlock).mean
        = listSum (⟨21, 1, 20, 22, 2, [20, 22]⟩ : StatBlock).values
            / (⟨21, 1, 20, 22, 2, [20, 22]⟩ : StatBlock).count
      ∧ (⟨21, 1, 20, 22, 2, [20, 22]⟩ : StatBlock).var
        = listSum ((⟨21, 1, 20, 22, 2, [20, 22]⟩ : StatBlock).values.map
            (fun v => (v - (⟨21, 1, 20, 22, 2, [20, 22]⟩ : StatBlock).mean) ^ 2))
            / (⟨21, 1, 20, 22, 2, [20, 22]⟩ : StatBlock).count :=
  c3_population_std.1 scenarioA "ours_7000" "PSNR" _ c3_population_std.2.2.1

/-- C4 counterexample: `sceneB_case-1` has a suffix that is not a
non-negative integer, yet it is not skipped: the extractor returns
`("sceneB", -1)` and the unit enters the collection and its group list. -/
theorem c4_counterexample :
    extract_scene_and_case "sceneB_case-1" = some ("sceneB", -1)
    ∧ caseGet (collect_all_results [entryNegCase]) "sceneB" (-1)
        = some [("ours_7000", [])]
    ∧ "sceneB" ∈ alKeys (collect_all_results [entryNegCase]) :=
  ⟨by decide, by decide, by decide⟩

/-- C4 (amended): when the name splits into exactly two parts around
`'_case'`, the left part is the group key verbatim and the right part goes
through Python `int()`, which accepts any (optionally signed) integer —
negative sub-unit ids included; only names whose suffix fails `int()` (or
that split into a different number of parts) are skipped, and every group
key in the collection comes from an accepted name with a parsed file. -/
theorem c4_signed_suffix :
    (∀ (dirname scene suffix : String), splitCase dirname = [scene, suffix] →
      extract_scene_and_case dirname = (pyInt? suffix).map (fun c => (scene, c)))
    ∧ (∀ dirname : String, (splitCase dirname).length ≠ 2 →
        extract_scene_and_case dirname = none)
    ∧ (∀ (dirs : List DirEntry) (s : String),
        s ∈ alKeys (collect_all_results dirs) →
        ∃ d ∈ dirs, ∃ c r, extract_scene_and_case d.name = some (s, c)
          ∧ d.file = FileState.parsed r) := by
  refine ⟨?_, ?_, fun dirs s h => alKeys_collect_origin h⟩
  · intro dirname scene suffix h
    rw [extract_scene_and_case, h]
    show (match pyInt? suffix with
      | some case_id => some (scene, case_id)
      | none => none) = (pyInt? suffix).map (fun c => (scene, c))
    cases pyInt? suffix <;> rfl
  · intro dirname h
    rw [extract_scene_and_case]
    cases hs : splitCase dirname with
    | nil => rfl
    | cons a t =>
      cases t with
      | nil => rfl
      | cons b t2 =>
        cases t2 with
        | nil => exact absurd (by rw [hs]; rfl) h
        | cons c t3 => rfl

/-- Witness for C4 (amended) at a positive and the negative suffix. -/
theorem c4_signed_suffix_witness :
    extract_scene_and_case "sceneB_case-1"
      = (pyInt? "-1").map (fun c => ("sceneB", c)) :=
  c4_signed_suffix.1 "sceneB_case-1" "sceneB" "-1" (by decide)

/-- C6: the collection is invariant under the enumeration order of the
child directories (any permutation of a listing with distinct names yields
the same collection), and it contains only successfully parsed units. -/
theorem c6_order_invariance :
    (∀ l₁ l₂ : List DirEntry, l₁.Perm l₂ → (l₁.map DirEntry.name).Nodup →
      collect_all_results l₁ = collect_all_results l₂)
    ∧ (∀ (dirs : List DirEntry) (s : String) (c : Int) (r : Results),
        caseGet (collect_all_results dirs) s c = some r →
        ∃ d ∈ dirs, extract_scene_and_case d.name = some (s, c)
          ∧ d.file = FileState.parsed r) :=
  ⟨fun _ _ hp hn => collect_congr hp hn, fun _ _ _ _ h => caseGet_some_origin h⟩

/-- Witness for C6: two enumeration orders of the same two directories. -/
theorem c6_order_invariance_witness :
    collect_all_results
        [⟨"b_case0", true, FileState.parsed []⟩, ⟨"a_case0", true, FileState.parsed []⟩]
      = collect_all_results
        [⟨"a_case0", true, FileState.parsed []⟩, ⟨"b_case0", true, FileState.parsed []⟩] :=
  c6_order_invariance.1 _ _ (List.Perm.swap _ _ _) (by decide)

/-- C7 counterexample: a JSON boolean is not a number, yet
`isinstance(value, (int, float))` accepts it (Python `bool` is a subclass
of `int`), so `{"PSNR": true}` produces a (ours_7000, PSNR) entry with the
boolean counted as 1.0. -/
theorem c7_counterexample :
    isNumberVal (MetricVal.boolean true) = false
    ∧ isinstance_int_float (MetricVal.boolean true) = true
    ∧ statsGet (compute_scene_statistics
        [(0, [("ours_7000", [("PSNR", MetricVal.boolean true)])])]) "ours_7000" "PSNR"
      = some ⟨1, 0, 1, 1, 1, [1]⟩ := by
  refine ⟨rfl, rfl, ?_⟩
  norm_num [compute_scene_statistics, sceneValueLists, vlAppend, vlGet, alGet, alInsert,
    statsGet, mkStatBlock, npMean, npVarPop, listSum, listMin, listMax,
    isinstance_int_float, toQ, min_def, max_def]

/-- C7 (amended): a value enters the (label, metric) sequence iff it passes
the `isinstance(value, (int, float))` filter, which holds iff the value is a
JSON number or a JSON boolean; non-passing values are dropped by the type
filter (no error) and the rest of the unit is still processed. -/
theorem c7_numeric_filter :
    (∀ v : MetricVal, isinstance_int_float v = true
      ↔ (isNumberVal v = true ∨ isBooleanVal v = true))
    ∧ (∀ (sr : CaseMap) (i m : String),
        vlGet (sceneValueLists sr) i m
          = (sceneTriples sr).filterMap (fun t =>
              if t.1 = i ∧ t.2.1 = m then some t.2.2 else none)) := by
  constructor
  · intro v
    cases v <;> simp [isinstance_int_float, isNumberVal, isBooleanVal]
  · intro sr i m
    rw [sceneValueLists_eq, vlGet_vlAppendAll]
    rfl

/-- C8: last-write-wins — a collection lookup returns the last parsed unit
with that (group, sub-unit) key in processing order; concretely,
`a_case01` and `a_case1` both map to `("a", 1)` and the later-sorted
`a_case1` wins, with no error. -/
theorem c8_last_write_wins :
    (∀ (dirs : List DirEntry) (s : String) (c : Int),
      caseGet (collect_all_results dirs) s c
        = (matchesAt (processedDirs dirs) s c).getLast?)
    ∧ collect_all_results
        [⟨"a_case01", true, FileState.parsed [("k1", [])]⟩,
         ⟨"a_case1", true, FileState.parsed [("k2", [])]⟩]
      = [("a", [(1, [("k2", [])])])] :=
  ⟨fun dirs s c => caseGet_collect dirs s c, by decide⟩

/-- C1: in the overall statistics, the count of each (label, metric) pair is
the number of groups whose statistics contain that pair (each such group
contributes exactly one value, its mean), not the number of raw sub-units;
concretely scenario B yields mean 25, std 5 (variance 25), count 2. -/
theorem c1_overall_count_per_group :
    (∀ (ass : List (String × SceneStats)) (i m : String) (b : OverallBlock),
      (∀ p ∈ ass, WfScene p.2) →
      overallGet (compute_overall_statistics ass) i m = some b →
      b.count = (ass.filter (fun p => (statsGet p.2 i m).isSome)).length)
    ∧ overallGet (compute_overall_statistics scenarioB) "ours_7000" "PSNR"
        = some ⟨25, 25, 20, 30, 2⟩
    ∧ Real.sqrt ((25 : ℚ) : ℝ) = 5 := by
  refine ⟨?_, ?_, ?_⟩
  · intro ass i m b hwf h
    rw [overallGet_compute_overall] at h
    by_cases hl : 0 < (vlGet (overallValueLists ass) i m).length
    · rw [if_pos hl] at h
      have hb : b = mkOverallBlock (vlGet (overallValueLists ass) i m) := by
        injection h with h'
        exact h'.symm
      subst hb
      show (vlGet (overallValueLists ass) i m).length = _
      rw [vlGet_overall ass i m hwf]
      exact length_filterMap_optMap _ _ _
    · rw [if_neg hl] at h
      cases h
  · norm_num [scenarioB, compute_overall_statistics, compute_scene_statistics,
      sceneValueLists, overallValueLists, vlAppend, vlGet, alGet, alInsert,
      overallGet, statsGet, mkStatBlock, mkOverallBlock, npMean, npVarPop, listSum,
      listMin, listMax, isinstance_int_float, toQ, min_def, max_def]
  · rw [show ((25 : ℚ) : ℝ) = 5 ^ 2 by norm_num,
      Real.sqrt_sq (by norm_num : (0:ℝ) ≤ 5)]

/-- Witness for C1 at scenario B. -/
theorem c1_overall_count_per_group_witness :
    (⟨25, 25, 20, 30, 2⟩ : OverallBlock).count
      = (scenarioB.filter (fun p => (statsGet p.2 "ours_7000" "PSNR").isSome)).length :=
  c1_overall_count_per_group.1 scenarioB "ours_7000" "PSNR" _
    (fun p hp => by
      rcases List.mem_cons.mp hp with h | h
      · rw [h]
        exact wfScene_compute _
      · rcases List.mem_cons.mp h with h' | h'
        · rw [h']
          exact wfScene_compute _
        · cases h')
    c1_overall_count_per_group.2.1

/-- C5: over a well-formed snapshot, `main` exits 1 exactly when the
results directory is missing or the scan collects nothing, exits 0
otherwise, and the fatal branches write no output file. -/
theorem c5_exit_codes (args : Args) (fs0 : Fs) (hwf : fs0.Wf) :
    ((mainRun args fs0).exit_code = 1 ↔
      (fs0.isDirF args.results_dir = false
        ∨ collect_all_results (fs0.childrenOf args.results_dir) = []))
    ∧ ((mainRun args fs0).exit_code = 0 ∨ (mainRun args fs0).exit_code = 1)
    ∧ ((mainRun args fs0).exit_code = 1 → (mainRun args fs0).written = []) :=
  ⟨mainRun_exit_iff args fs0 hwf, (mainRun_codes args fs0).1, (mainRun_codes args fs0).2⟩

/-- Witness for C5 on an empty snapshot. -/
theorem c5_exit_codes_witness :
    ((mainRun ⟨"root", none, ["json", "csv"]⟩ ⟨[], []⟩).exit_code = 1 ↔
      ((⟨[], []⟩ : Fs).isDirF "root" = false
        ∨ collect_all_results ((⟨[], []⟩ : Fs).childrenOf "root") = []))
    ∧ ((mainRun ⟨"root", none, ["json", "csv"]⟩ ⟨[], []⟩).exit_code = 0
        ∨ (mainRun ⟨"root", none, ["json", "csv"]⟩ ⟨[], []⟩).exit_code = 1)
    ∧ ((mainRun ⟨"root", none, ["json", "csv"]⟩ ⟨[], []⟩).exit_code = 1 →
        (mainRun ⟨"root", none, ["json", "csv"]⟩ ⟨[], []⟩).written = []) :=
  c5_exit_codes ⟨"root", none, ["json", "csv"]⟩ ⟨[], []⟩ (fun _ _ => rfl)

/-- C9: for fixed child-listing content, the serialized structured summary
is byte-identical regardless of enumeration order: the whole document is a
function of the collected data, and collection is order-invariant. -/
theorem c9_deterministic_output (rd : String) (l₁ l₂ : List DirEntry)
    (hp : l₁.Perm l₂) (hn : (l₁.map DirEntry.name).Nodup) :
    serializeSummary (buildSummary rd l₁) = serializeSummary (buildSummary rd l₂)
    ∧ buildSummary rd l₁ = buildSummary rd l₂ := by
  have h := buildSummary_congr rd hp hn
  exact ⟨by rw [h], h⟩

/-- Witness for C9: two enumeration orders of the same two directories. -/
theorem c9_deterministic_output_witness :
    serializeSummary (buildSummary "root"
        [⟨"b_case0", true, FileState.parsed []⟩, ⟨"a_case0", true, FileState.parsed []⟩])
      = serializeSummary (buildSummary "root"
        [⟨"a_case0", true, FileState.parsed []⟩, ⟨"b_case0", true, FileState.parsed []⟩])
    ∧ buildSummary "root"
        [⟨"b_case0", true, FileState.parsed []⟩, ⟨"a_case0", true, FileState.parsed []⟩]
      = buildSummary "root"
        [⟨"a_case0", true, FileState.parsed []⟩, ⟨"b_case0", true, FileState.parsed []⟩] :=
  c9_deterministic_output "root" _ _ (List.Perm.swap _ _ _) (by decide)

/-- C10: with `--output_dir` omitted, `main` creates the results directory
(the default output directory) before the `is_dir` check, so a missing root
is created on disk, scanned empty, and the run exits 1 through the
no-results branch; the directory-not-found branch is reachable only when a
separate `--output_dir` is supplied. -/
theorem c10_mkdir_before_check :
    (∀ (args : Args) (fs0 : Fs), args.output_dir = none →
      fs0.isDirF args.results_dir = false → fs0.Wf →
      ((mainRun args fs0).fs.isDirF args.results_dir = true
        ∧ (mainRun args fs0).outcome = ExitOutcome.noResults
        ∧ (mainRun args fs0).exit_code = 1))
    ∧ (∀ (args : Args) (fs0 : Fs),
        (mainRun args fs0).outcome = ExitOutcome.dirNotFound →
        ∃ o, args.output_dir = some o ∧ o ≠ args.results_dir) := by
  constructor
  · intro args fs0 hout hmiss hwf
    have hod : args.output_dir.getD args.results_dir = args.results_dir := by
      rw [hout]
      rfl
    have h1 : (fs0.mkdirP (args.output_dir.getD args.results_dir)).isDirF
        args.results_dir = true := by
      rw [hod]
      exact isDirF_mkdirP_self fs0 args.results_dir
    have h2 : collect_all_results
        ((fs0.mkdirP (args.output_dir.getD args.results_dir)).childrenOf
          args.results_dir) = [] := by
      rw [childrenOf_mkdirP, hwf _ hmiss]
      exact collect_all_results_nil
    rw [mainRun_noResults h1 h2]
    exact ⟨h1, rfl, rfl⟩
  · intro args fs0 hout
    cases hopt : args.output_dir with
    | none =>
      exfalso
      have h1 : (fs0.mkdirP (args.output_dir.getD args.results_dir)).isDirF
          args.results_dir = true := by
        rw [hopt]
        exact isDirF_mkdirP_self fs0 args.results_dir
      by_cases h2 : collect_all_results
          ((fs0.mkdirP (args.output_dir.getD args.results_dir)).childrenOf
            args.results_dir) = []
      · rw [mainRun_noResults h1 h2] at hout
        simp at hout
      · rw [mainRun_ok h1 h2] at hout
        simp at hout
    | some o =>
      by_cases ho : o = args.results_dir
      · exfalso
        have h1 : (fs0.mkdirP (args.output_dir.getD args.results_dir)).isDirF
            args.results_dir = true := by
          rw [hopt]
          show (fs0.mkdirP o).isDirF args.results_dir = true
          rw [ho]
          exact isDirF_mkdirP_self fs0 args.results_dir
        by_cases h2 : collect_all_results
            ((fs0.mkdirP (args.output_dir.getD args.results_dir)).childrenOf
              args.results_dir) = []
        · rw [mainRun_noResults h1 h2] at hout
          simp at hout
        · rw [mainRun_ok h1 h2] at hout
          simp at hout
      · exact ⟨o, rfl, ho⟩

/-- Witness for C10 on an empty snapshot with `--output_dir` omitted. -/
theorem c10_mkdir_before_check_witness :
    (mainRun ⟨"root", none, ["json", "csv"]⟩ ⟨[], []⟩).fs.isDirF "root" = true
    ∧ (mainRun ⟨"root", none, ["json", "csv"]⟩ ⟨[], []⟩).outcome
        = ExitOutcome.noResults
    ∧ (mainRun ⟨"root", none, ["json", "csv"]⟩ ⟨[], []⟩).exit_code = 1 :=
  c10_mkdir_before_check.1 ⟨"root", none, ["json", "csv"]⟩ ⟨[], []⟩ rfl rfl
    (fun _ _ => rfl)

example : splitCase "scene0686_01_case5" = ["scene0686_01", "5"] := by decide
example : extract_scene_and_case "scene0686_01_case5" = some ("scene0686_01", 5) := by decide
example : extract_scene_and_case "sceneB_caseX" = none := by decide
example : extract_scene_and_case "sceneB_case-1" = some ("sceneB", -1) := by decide
example : extract_scene_and_case "abc" = none := by decide
example : extract_scene_and_case "a_case" = none := by decide
example : extract_scene_and_case "a_case1_case2" = none := by decide
example : pyInt? " 12 " = some 12 := by decide
example : pyInt? "1_0" = some 10 := by decide
example : pyInt? "1__0" = none := by decide
example : pyInt? "_1" = none := by decide
example : pyInt? "1_" = none := by decide
example : pyInt? "+7" = some 7 := by decide
example : containsCase "x_case3" = true := by decide
example : containsCase "xcase3" = false := by decide

end AggRes
